import Mathlib

/-!
Shallow embedding of the core of the `sheets` Go library
(https://github.com/kataras/sheets): the error model (`error.go`),
the metadata reflector and binding engine (`values.go`), and the
resource-release discipline of the transport / request framer
(`client.go`).  Go structs become Lean structures, reflective
dispatch becomes explicit parameters, Go's `error` interface becomes
small inductive sum types, and the reflective panic on an
out-of-bounds header index becomes an explicit `panicOOB` outcome.
-/

namespace Sheets

/-! ## Error model (src/error.go) -/

/-- Mirror of `ResourceError` (error.go:14-19): HTTP method, URL,
status code and raw message of a failed remote call. -/
structure ResourceError where
  method : String
  url : String
  statusCode : Int
  message : String
deriving DecidableEq, Repr

/-- Values of Go's `error` interface that can reach `IsResourceError` /
`IsStatusError`: either a `*ResourceError` or some other error value
(coded by a tag).  A `nil` interface is modelled by `Option.none` at
use sites. -/
inductive GoError where
  | resource (e : ResourceError)
  | other (tag : Nat)
deriving DecidableEq, Repr

/-- Mirror of `IsResourceError` (error.go:70-84).  The first argument is
the receiver-side error `e` (a `*ResourceError`, `none` meaning a nil
pointer), the second the `target` error interface value (`none` meaning
nil).  The result is `none` exactly when the Go code would dereference a
nil `e` (a runtime panic), otherwise `some` of the returned boolean. -/
def IsResourceError (e : Option ResourceError) (target : Option GoError) :
    Option Bool :=
  match target with
  | none => some (decide (e = none))
  | some (.other _) => some false
  | some (.resource t) =>
    match e with
    | none => none
    | some e =>
      some ((decide (e.method = t.method) || decide (t.method = "")) &&
            (decide (e.url = t.url) || decide (t.url = "")) &&
            (decide (e.statusCode = t.statusCode) || decide (t.statusCode ≤ 0)) &&
            (decide (e.message = t.message) || decide (t.message = "")))

/-- Mirror of `(*ResourceError).Is` (error.go:88-90), the hook used by
`errors.Is`: the candidate error is the receiver, the pattern is the
target. -/
def ResourceError.goIs (e : ResourceError) (target : Option GoError) :
    Option Bool :=
  IsResourceError (some e) target

/-- Mirror of `IsStatusError` (error.go:54-65): returns `(nil, false)`
when the target is nil or not a `*ResourceError`, otherwise the
`*ResourceError` itself paired with whether its status code equals the
requested one. -/
def IsStatusError (statusCode : Int) (target : Option GoError) :
    Option ResourceError × Bool :=
  match target with
  | none => (none, false)
  | some (.other _) => (none, false)
  | some (.resource t) => (some t, decide (t.statusCode = statusCode))

/-! ## Cell values and field types (the fragment of Go's runtime type
universe exercised by `values.go`) -/

/-- Runtime types of struct fields / cell values that the binding engine
compares for assignability.  `other` covers any further Go type, coded by
a tag; distinct tags are distinct types. -/
inductive FieldType where
  | tstr
  | tint
  | tbool
  | tother (tag : Nat)
deriving DecidableEq, Repr

/-- A heterogeneous cell value (an `interface{}` held in a
`ValueRange.Values` matrix). -/
inductive CellValue where
  | vstr (s : String)
  | vint (n : Int)
  | vbool (b : Bool)
  | vother (tag : Nat) (payload : Nat)
deriving DecidableEq, Repr

/-- Runtime type of a cell value (`reflect.ValueOf(value).Type()`). -/
def CellValue.typeOf : CellValue → FieldType
  | .vstr _ => .tstr
  | .vint _ => .tint
  | .vbool _ => .tbool
  | .vother tag _ => .tother tag

/-- Go zero value of a field type, used to initialise the fields of a
freshly allocated struct (`reflect.New`). -/
def FieldType.zero : FieldType → CellValue
  | .tstr => .vstr ""
  | .tint => .vint 0
  | .tbool => .vbool false
  | .tother tag => .vother tag 0

/-- Go assignability (`val.Type().AssignableTo(h.FieldType)`) restricted
to the modelled type universe: exact type identity. -/
def assignableTo (a b : FieldType) : Bool := a == b

/-! ## Struct types and metadata (src/values.go:58-147) -/

/-- One field of a Go struct type as seen by `getMetadata`: its name,
its `PkgPath` (empty iff exported), the value of its `sheets` struct tag
(empty when absent), and its declared type. -/
structure StructField where
  name : String
  pkgPath : String
  tag : String
  typ : FieldType
deriving DecidableEq, Repr

/-- A Go struct type: its fields in declaration order plus whether a
pointer to it implements the `FieldDecoder` interface
(values.go:135-140).  Type identity is structural in this universe. -/
structure StructType where
  fields : List StructField
  hasDecoder : Bool
deriving DecidableEq, Repr

/-- Mirror of `Header` (values.go:59-64): sheet header name, index of
the field within the struct, field name, field type. -/
structure Header where
  name : String
  fieldIndex : Nat
  fieldName : String
  fieldType : FieldType
deriving DecidableEq, Repr

/-- Mirror of `metadata` (values.go:79-84); `hasDecoder` stands for
`decodeFieldFunc != nil`. -/
structure Metadata where
  headers : List Header
  hasDecoder : Bool
deriving DecidableEq, Repr

/-- Header-building loop of `getMetadata` (values.go:109-128), with the
running field index made explicit: skip unexported fields
(`f.PkgPath != ""`); the display name is the `sheets` tag when non-empty,
else the field name; a tag of `"-"` excludes the field. -/
def headersFrom : Nat → List StructField → List Header
  | _, [] => []
  | i, f :: fs =>
    if f.pkgPath ≠ "" then headersFrom (i + 1) fs
    else if f.tag = "" then
      ⟨f.name, i, f.name, f.typ⟩ :: headersFrom (i + 1) fs
    else if f.tag = "-" then headersFrom (i + 1) fs
    else ⟨f.tag, i, f.name, f.typ⟩ :: headersFrom (i + 1) fs

/-- Headers of a struct type (values.go:106-128). -/
def getHeaders (st : StructType) : List Header := headersFrom 0 st.fields

/-- The process-wide metadata cache (values.go:75), modelled as an
association list keyed by type identity. -/
abbrev Cache := List (StructType × Metadata)

/-- Cache lookup (`cache[typ]` under the read lock, values.go:95-97). -/
def cacheLookup : Cache → StructType → Option Metadata
  | [], _ => none
  | (t, m) :: rest, st => if t = st then some m else cacheLookup rest st

/-- Mirror of `getMetadata` (values.go:94-147) with the cache passed and
returned explicitly: on a hit return the cached instance unchanged, on a
miss build the header list, detect the `FieldDecoder` capability, and
publish the new entry. -/
def getMetadata (cache : Cache) (st : StructType) : Metadata × Cache :=
  match cacheLookup cache st with
  | some meta => (meta, cache)
  | none =>
    let meta : Metadata := ⟨getHeaders st, st.hasDecoder⟩
    (meta, (st, meta) :: cache)

/-! ## Binding engine (src/values.go:149-242) -/

/-- A struct instance: one value per field of its type, in declaration
order (`reflect.New(typ)` then `Field(i).Set`). -/
abbrev Record := List CellValue

/-- Fresh zero-valued instance of a struct type (`reflect.New(typ)`). -/
def zeroRecord (st : StructType) : Record :=
  st.fields.map (fun f => f.typ.zero)

/-- Result of a custom `DecodeField` call: Go's returned `error`, which
is nil (`nilErr`), the `ErrOK` sentinel (compared by identity at
values.go:225), or some other error coded by a tag. -/
inductive HookRes where
  | nilErr
  | errOK
  | err (tag : Nat)
deriving DecidableEq, Repr

/-- A custom `DecodeField` implementation (values.go:88-90): it receives
the header and the raw cell value, may mutate the receiver struct
(returned as the new record), and returns an error. -/
def Hook := Header → CellValue → Record → Record × HookRes

/-- Outcome of `decodeValue` (values.go:211-242): normal return with the
(possibly updated) struct, an error propagated from the custom hook
carrying the partially updated struct, or the runtime panic raised by
the unchecked `meta.headers[i]` index (values.go:217). -/
inductive DecValOut where
  | ok (rec : Record)
  | err (tag : Nat) (rec : Record)
  | panicOOB
deriving DecidableEq, Repr

/-- Default field assignment (values.go:233-238): assign the raw cell
value to the header's field exactly when its runtime type is assignable
to the field's declared type, otherwise leave the field untouched. -/
def defaultAssign (h : Header) (v : CellValue) (rec : Record) : Record :=
  if assignableTo v.typeOf h.fieldType then rec.set h.fieldIndex v else rec

/-- Cell loop of `decodeValue` (values.go:216-239) with the running cell
index explicit.  Each iteration first performs the unchecked header
lookup `meta.headers[i]`; when the type has a custom decoder the hook is
invoked, its `ErrOK` result falls through to default assignment, a nil
result skips it, any other error aborts the bind. -/
def decodeCells (hook : Hook) (meta : Metadata) :
    Nat → List CellValue → Record → DecValOut
  | _, [], rec => .ok rec
  | i, v :: rest, rec =>
    match meta.headers.get? i with
    | none => .panicOOB
    | some h =>
      if meta.hasDecoder then
        match hook h v rec with
        | (rec', .err tag) => .err tag rec'
        | (rec', .errOK) =>
          decodeCells hook meta (i + 1) rest (defaultAssign h v rec')
        | (rec', .nilErr) => decodeCells hook meta (i + 1) rest rec'
      else
        decodeCells hook meta (i + 1) rest (defaultAssign h v rec)

/-- Mirror of `decodeValue` (values.go:211-242): an empty row or a type
with no bindable headers is a no-op. -/
def decodeValue (hook : Hook) (row : List CellValue) (meta : Metadata)
    (rec : Record) : DecValOut :=
  if row.isEmpty || meta.headers.isEmpty then .ok rec
  else decodeCells hook meta 0 row rec

/-- Mirror of `ValueRange` (values.go:16-32) over the modelled cell
universe. -/
structure ValueRange where
  range : String
  majorDimension : String
  values : List (List CellValue)
deriving DecidableEq, Repr

/-- Destination shapes distinguished by `DecodeValueRange`
(values.go:157-208): the pointee is carried for the supported shapes,
unsupported shapes are bare tags. -/
inductive Dest where
  | notPtr
  | ptrOther
  | ptrStruct (st : StructType) (rec : Record)
  | ptrSliceStructs (st : StructType) (items : List Record)
  | ptrSlicePtrStructs (st : StructType) (items : List Record)
  | ptrSliceOther
  | ptrSlicePtrOther
deriving DecidableEq, Repr

/-- Errors returned by `DecodeValueRange`: the four destination-shape
errors (values.go:159, 175, 178, 205) and an error propagated from a
custom hook. -/
inductive BindError where
  | notPointer
  | notSlicePtrStructs
  | notSliceStructs
  | notStruct
  | hookE (tag : Nat)
deriving DecidableEq, Repr

/-- Overall outcome of a `DecodeValueRange` call: nil error, a returned
error, or the reflective out-of-bounds panic. -/
inductive Outcome where
  | ok
  | err (e : BindError)
  | panic
deriving DecidableEq, Repr

/-- Result of `DecodeValueRange`: outcome, the destination after the
call (appends performed before an abort persist, values.go:190-200),
and the metadata cache after the call. -/
structure BindResult where
  outcome : Outcome
  dest : Dest
  cache : Cache
deriving DecidableEq, Repr

/-- Row loop for one matrix (values.go:190-200): allocate a fresh zero
record per row, bind it, and append it; a hook error or panic aborts,
keeping the rows already appended. -/
def bindRows (hook : Hook) (meta : Metadata) (st : StructType)
    (items : List Record) : List (List CellValue) → Outcome × List Record
  | [] => (.ok, items)
  | row :: rows =>
    match decodeValue hook row meta (zeroRecord st) with
    | .ok rec => bindRows hook meta st (items ++ [rec]) rows
    | .err tag _ => (.err (.hookE tag), items)
    | .panicOOB => (.panic, items)

/-- Matrix loop (values.go:182-201): matrices in the order supplied. -/
def bindRanges (hook : Hook) (meta : Metadata) (st : StructType)
    (items : List Record) : List ValueRange → Outcome × List Record
  | [] => (.ok, items)
  | rv :: rest =>
    match bindRows hook meta st items rv.values with
    | (.ok, items') => bindRanges hook meta st items' rest
    | (out, items') => (out, items')

/-- Mirror of `DecodeValueRange` (values.go:150-209).  The custom-decode
hook of the element type is passed explicitly (in Go it is dispatched
reflectively from the type); the cache is threaded explicitly. -/
def DecodeValueRange (hook : Hook) (cache : Cache) (dest : Dest)
    (rangeValues : List ValueRange) : BindResult :=
  match rangeValues with
  | [] => ⟨.ok, dest, cache⟩
  | rv0 :: _ =>
    if rv0.values.isEmpty then ⟨.ok, dest, cache⟩
    else
      match dest with
      | .notPtr => ⟨.err .notPointer, dest, cache⟩
      | .ptrSlicePtrOther => ⟨.err .notSlicePtrStructs, dest, cache⟩
      | .ptrSliceOther => ⟨.err .notSliceStructs, dest, cache⟩
      | .ptrSliceStructs st items =>
        let (meta, cache') := getMetadata cache st
        let (out, items') := bindRanges hook meta st items rangeValues
        ⟨out, .ptrSliceStructs st items', cache'⟩
      | .ptrSlicePtrStructs st items =>
        let (meta, cache') := getMetadata cache st
        let (out, items') := bindRanges hook meta st items rangeValues
        ⟨out, .ptrSlicePtrStructs st items', cache'⟩
      | .ptrOther => ⟨.err .notStruct, dest, cache⟩
      | .ptrStruct st rec =>
        let (meta, cache') := getMetadata cache st
        match decodeValue hook (rv0.values.headD []) meta rec with
        | .ok rec' => ⟨.ok, .ptrStruct st rec', cache'⟩
        | .err tag rec' => ⟨.err (.hookE tag), .ptrStruct st rec', cache'⟩
        | .panicOOB => ⟨.panic, .ptrStruct st rec, cache'⟩

/-! ## Transport and request framer (src/client.go:63-128), modelled at
the level of exit paths and response-body ownership -/

/-- The response observed by `Client.Do` once `HTTPClient.Do` succeeds:
its status code, whether the `Content-Encoding` header equals `gzip`
(client.go:92), and whether `gzip.NewReader` succeeds on its body
(client.go:93). -/
structure HTTPResponse where
  statusCode : Int
  gzipEncoded : Bool
  bodyValidGzip : Bool
deriving DecidableEq, Repr

/-- What the underlying `HTTPClient.Do` call produces: a transport
failure (with or without a partially received response carrying a body),
or a response. -/
inductive TransportOutcome where
  | failure (responsePresent : Bool)
  | success (resp : HTTPResponse)
deriving DecidableEq, Repr

/-- Result of `Client.Do` (client.go:63-101) for resource accounting:
the response handed to the caller (if any), whether an error was
returned, and whether a response body that existed was left neither
closed nor handed to the caller. -/
structure DoResult where
  returned : Option HTTPResponse
  errored : Bool
  bodyOrphaned : Bool
deriving DecidableEq, Repr

/-- Exit paths of `Client.Do` (client.go:78-101).  On a transport error
any present response body is closed before returning (client.go:85-87).
On a gzip-encoded response, a `gzip.NewReader` failure returns the error
without closing `response.Body` (client.go:93-96), leaving the body
orphaned; on success the (possibly wrapped) body is handed to the
caller. -/
def clientDo : TransportOutcome → DoResult
  | .failure _ => ⟨none, true, false⟩
  | .success resp =>
    if resp.gzipEncoded then
      if resp.bodyValidGzip then ⟨some resp, false, false⟩
      else ⟨none, true, true⟩
    else ⟨some resp, false, false⟩

/-- Exit paths of `Client.ReadJSON` (client.go:104-128) after the
`Client.Do` call: when `Do` errors, `ReadJSON` returns that error having
never seen the response; when `Do` succeeds, `defer resp.Body.Close()`
(client.go:121) closes the body on the non-OK-status path and on the
success/decode path alike.  The result is whether some response body of
the whole request/response cycle was left unclosed. -/
def readJSONLeaksBody (t : TransportOutcome) : Bool :=
  let d := clientDo t
  match d.returned with
  | none => d.bodyOrphaned
  | some _ => false

/-! ## Concrete instances used by examples and witnesses -/

/-- A hook that does nothing and returns a nil error. -/
def trivialHook : Hook := fun _ _ r => (r, .nilErr)

/-- The struct type of the spec's running example (values_test.go:7-11
without the excluded field): fields `Name string` and `Age int`, no
tags, no custom decoder. -/
def nameAgeStruct : StructType :=
  ⟨[⟨"Name", "", "", .tstr⟩, ⟨"Age", "", "", .tint⟩], false⟩

/-- The `testRow` struct of values_test.go:7-11: `Name string`,
`Other string` tagged `sheets:"-"`, `Age int`. -/
def testRowStruct : StructType :=
  ⟨[⟨"Name", "", "", .tstr⟩, ⟨"Other", "", "-", .tstr⟩,
    ⟨"Age", "", "", .tint⟩], false⟩

/-- The per-field decision of `getMetadata`'s loop (values.go:110-127):
`none` when the field at declaration index `i` is skipped (unexported or
tagged `"-"`), otherwise the header it contributes. -/
def headerOf (i : Nat) (f : StructField) : Option Header :=
  if f.pkgPath ≠ "" then none
  else if f.tag = "-" then none
  else some ⟨(if f.tag = "" then f.name else f.tag), i, f.name, f.typ⟩

/-- The header loop is the indexed filter-map of the per-field
decision: headers come one per kept field, in declaration order. -/
theorem headersFrom_eq_filterMap (fields : List StructField) :
    ∀ i : Nat, headersFrom i fields =
      (fields.enumFrom i).filterMap (fun p => headerOf p.1 p.2) := by
  induction fields with
  | nil => intro i; rfl
  | cons f fs ih =>
    intro i
    simp only [show (f :: fs).enumFrom i = (i, f) :: fs.enumFrom (i + 1) from rfl,
      List.filterMap_cons]
    unfold headersFrom
    by_cases h1 : f.pkgPath ≠ ""
    · rw [show headerOf i f = none from by simp [headerOf, h1]]
      simp [h1, ih]
    · by_cases h2 : f.tag = ""
      · have h3 : f.tag ≠ "-" := by simp [h2]
        rw [show headerOf i f = some ⟨f.name, i, f.name, f.typ⟩ from by
          simp [headerOf, h1, h2, h3]]
        simp [h1, h2, ih]
      · by_cases h3 : f.tag = "-"
        · rw [show headerOf i f = none from by simp [headerOf, h3]]
          simp [h1, h2, h3, ih]
        · rw [show headerOf i f = some ⟨f.tag, i, f.name, f.typ⟩ from by
            simp [headerOf, h1, h2, h3]]
          simp [h1, h2, h3, ih]

/-- With every field exported and untagged, the header loop keeps every
field, in declaration order, named by the field's own name. -/
theorem headersFrom_all_plain (fields : List StructField)
    (h : ∀ f ∈ fields, f.pkgPath = "" ∧ f.tag = "") :
    ∀ i, headersFrom i fields =
      (fields.enumFrom i).map
        fun p => (⟨p.2.name, p.1, p.2.name, p.2.typ⟩ : Header) := by
  induction fields with
  | nil => intro i; rfl
  | cons f fs ih =>
    intro i
    obtain ⟨h1, h2⟩ := h f (List.mem_cons_self f fs)
    have hfs := fun g hg => h g (List.mem_cons_of_mem f hg)
    unfold headersFrom
    simp [h1, h2, ih hfs,
      show (f :: fs).enumFrom i = (i, f) :: fs.enumFrom (i + 1) from rfl]

/-- Pure default-assignment fold: what the cell loop computes when no
custom decoder is involved. -/
def applyRow (headers : List Header) : Nat → List CellValue → Record → Record
  | _, [], rec => rec
  | i, v :: rest, rec =>
    match headers.get? i with
    | none => rec
    | some h => applyRow headers (i + 1) rest (defaultAssign h v rec)

/-- Without a custom decoder, the cell loop is exactly the
default-assignment fold, and it never errors, as long as every cell
index is within the header list. -/
theorem decodeCells_noHook (hook : Hook) (meta : Metadata)
    (hd : meta.hasDecoder = false) :
    ∀ (row : List CellValue) (i : Nat) (rec : Record),
      i + row.length ≤ meta.headers.length →
      decodeCells hook meta i row rec =
        .ok (applyRow meta.headers i row rec) := by
  intro row
  induction row with
  | nil => intro i rec _; rfl
  | cons v rest ih =>
    intro i rec hb
    have hi : i < meta.headers.length := by
      simp only [List.length_cons] at hb; omega
    have hh : meta.headers.get? i = some (meta.headers.get ⟨i, hi⟩) :=
      List.get?_eq_get hi
    simp only [decodeCells, applyRow, hh, hd]
    exact ih (i + 1) _ (by simp only [List.length_cons] at hb; omega)

/-- Any row whose cells all index inside the header list never reaches
the out-of-bounds panic, for any hook. -/
theorem decodeCells_no_panic (hook : Hook) (meta : Metadata) :
    ∀ (row : List CellValue) (i : Nat) (rec : Record),
      i + row.length ≤ meta.headers.length →
      decodeCells hook meta i row rec ≠ .panicOOB := by
  intro row
  induction row with
  | nil => intro i rec _; simp [decodeCells]
  | cons v rest ih =>
    intro i rec hb
    have hi : i < meta.headers.length := by
      simp only [List.length_cons] at hb; omega
    have hh : meta.headers.get? i = some (meta.headers.get ⟨i, hi⟩) :=
      List.get?_eq_get hi
    have hb' : i + 1 + rest.length ≤ meta.headers.length := by
      simp only [List.length_cons] at hb; omega
    simp only [decodeCells, hh]
    by_cases hd : meta.hasDecoder
    · simp only [hd, if_true]
      rcases hres : hook (meta.headers.get ⟨i, hi⟩) v rec with ⟨rec', rr⟩
      cases rr with
      | nilErr => exact ih (i + 1) rec' hb'
      | errOK => exact ih (i + 1) _ hb'
      | err tag => simp
    · simp only [hd, if_false]
      exact ih (i + 1) _ hb'

/-- Without a custom decoder, a row that runs past the end of the header
list always reaches the out-of-bounds panic. -/
theorem decodeCells_noHook_panic (hook : Hook) (meta : Metadata)
    (hd : meta.hasDecoder = false) :
    ∀ (row : List CellValue) (i : Nat) (rec : Record),
      i ≤ meta.headers.length → meta.headers.length < i + row.length →
      decodeCells hook meta i row rec = .panicOOB := by
  intro row
  induction row with
  | nil => intro i rec hle hlt; simp only [List.length_nil] at hlt; omega
  | cons v rest ih =>
    intro i rec hle hlt
    by_cases hi : i < meta.headers.length
    · have hh : meta.headers.get? i = some (meta.headers.get ⟨i, hi⟩) :=
        List.get?_eq_get hi
      simp only [decodeCells, hh, hd, if_false]
      exact ih (i + 1) _ hi
        (by simp only [List.length_cons] at hlt; omega)
    · have hh : meta.headers.get? i = none :=
        List.get?_eq_none.mpr (by omega)
      simp only [decodeCells, hh]

/-- Whether a `decodeValue` outcome is a normal return. -/
def DecValOut.isOk : DecValOut → Bool
  | .ok _ => true
  | _ => false

/-- The record a row decodes to (on a normal return): each row starts
from a fresh zero-valued instance, so rows are decoded independently of
one another and of the destination. -/
def decodeRowD (hook : Hook) (meta : Metadata) (st : StructType)
    (row : List CellValue) : Record :=
  match decodeValue hook row meta (zeroRecord st) with
  | .ok r => r
  | .err _ r => r
  | .panicOOB => zeroRecord st

/-- All data rows of a matrix list, matrices in the order supplied and
rows within a matrix in order. -/
def allRows (rangeValues : List ValueRange) : List (List CellValue) :=
  (rangeValues.map ValueRange.values).flatten

/-- When every row of a matrix decodes normally, the row loop appends
exactly the decoded records, in row order. -/
theorem bindRows_ok (hook : Hook) (meta : Metadata) (st : StructType) :
    ∀ (rows : List (List CellValue)) (items : List Record),
      (∀ row ∈ rows,
        (decodeValue hook row meta (zeroRecord st)).isOk = true) →
      bindRows hook meta st items rows =
        (.ok, items ++ rows.map (decodeRowD hook meta st)) := by
  intro rows
  induction rows with
  | nil => intro items _; simp [bindRows]
  | cons row rest ih =>
    intro items hok
    have h1 := hok row (List.mem_cons_self row rest)
    cases hdec : decodeValue hook row meta (zeroRecord st) with
    | ok r =>
      have hd : decodeRowD hook meta st row = r := by
        simp [decodeRowD, hdec]
      simp only [bindRows, hdec]
      rw [ih (items ++ [r])
        (fun r' hr' => hok r' (List.mem_cons_of_mem row hr'))]
      simp [hd, List.append_assoc]
    | err tag r => rw [hdec] at h1; simp [DecValOut.isOk] at h1
    | panicOOB => rw [hdec] at h1; simp [DecValOut.isOk] at h1

/-- When every row of every matrix decodes normally, the matrix loop
appends exactly the decoded records of all matrices, concatenated in
encounter order. -/
theorem bindRanges_ok (hook : Hook) (meta : Metadata) (st : StructType) :
    ∀ (rvs : List ValueRange) (items : List Record),
      (∀ row ∈ allRows rvs,
        (decodeValue hook row meta (zeroRecord st)).isOk = true) →
      bindRanges hook meta st items rvs =
        (.ok, items ++ (allRows rvs).map (decodeRowD hook meta st)) := by
  intro rvs
  induction rvs with
  | nil => intro items _; simp [bindRanges, allRows]
  | cons rv rest ih =>
    intro items hok
    have hsplit : allRows (rv :: rest) = rv.values ++ allRows rest := by
      simp [allRows]
    have hok1 : ∀ row ∈ rv.values,
        (decodeValue hook row meta (zeroRecord st)).isOk = true :=
      fun row hr => hok row (by rw [hsplit]; exact List.mem_append_left _ hr)
    have hok2 : ∀ row ∈ allRows rest,
        (decodeValue hook row meta (zeroRecord st)).isOk = true :=
      fun row hr => hok row (by rw [hsplit]; exact List.mem_append_right _ hr)
    simp only [bindRanges, bindRows_ok hook meta st rv.values items hok1]
    rw [ih _ hok2]
    simp [hsplit, List.append_assoc]

/-- Pure fold of a per-cell record transformer, with no default
assignment anywhere: what the cell loop computes when a custom hook
handles every cell. -/
def applyHooked (g : Header → CellValue → Record → Record)
    (headers : List Header) : Nat → List CellValue → Record → Record
  | _, [], rec => rec
  | i, v :: rest, rec =>
    match headers.get? i with
    | none => rec
    | some h => applyHooked g headers (i + 1) rest (g h v rec)

/-- A hook that always answers the `ErrOK` sentinel without touching the
record makes the cell loop behave exactly like the loop of a type with
no custom decoder at all, whichever hook the latter is handed. -/
theorem decodeCells_errOK_id (hook hook' : Hook) (meta : Metadata)
    (hid : ∀ h v r, hook h v r = (r, .errOK)) :
    ∀ (row : List CellValue) (i : Nat) (rec : Record),
      decodeCells hook meta i row rec =
        decodeCells hook' ⟨meta.headers, false⟩ i row rec := by
  intro row
  induction row with
  | nil => intro i rec; rfl
  | cons v rest ih =>
    intro i rec
    cases hh : meta.headers.get? i with
    | none => simp only [decodeCells, hh]
    | some h =>
      by_cases hd : meta.hasDecoder
      · simp only [decodeCells, hh, hd, if_true, hid h v rec]
        exact ih (i + 1) _
      · simp only [decodeCells, hh, Bool.not_eq_true] at hd ⊢
        simp only [hd, Bool.false_eq_true, if_false]
        exact ih (i + 1) _

/-- A hook that handles every cell (returns a nil error) makes the cell
loop compute the pure fold of its record transformer, skipping default
assignment for every cell. -/
theorem decodeCells_handled (g : Header → CellValue → Record → Record)
    (hook : Hook) (meta : Metadata) (hd : meta.hasDecoder = true)
    (hg : ∀ h v r, hook h v r = (g h v r, .nilErr)) :
    ∀ (row : List CellValue) (i : Nat) (rec : Record),
      i + row.length ≤ meta.headers.length →
      decodeCells hook meta i row rec =
        .ok (applyHooked g meta.headers i row rec) := by
  intro row
  induction row with
  | nil => intro i rec _; rfl
  | cons v rest ih =>
    intro i rec hb
    have hi : i < meta.headers.length := by
      simp only [List.length_cons] at hb; omega
    have hh : meta.headers.get? i = some (meta.headers.get ⟨i, hi⟩) :=
      List.get?_eq_get hi
    simp only [decodeCells, applyHooked, hh, hd, if_true,
      hg (meta.headers.get ⟨i, hi⟩) v rec]
    exact ih (i + 1) _ (by simp only [List.length_cons] at hb; omega)

/-! ## Theorems -/

/-- C2: the error-matching predicate `matches(pattern, candidate)` —
realised by `(*ResourceError).Is(candidate, pattern)`, i.e.
`IsResourceError(candidate, pattern)` (error.go:70-90) — returns true
exactly when both are ResourceError-typed (or both absent) and every
pattern field (method, URL, status code, message) is either equal to the
candidate's corresponding field or is the type's zero value (empty
string / non-positive status code); in particular
`matches({status:404}, {method:"GET", url:"x", status:404, message:"m"})`
is true and
`matches({method:"POST", status:404}, {method:"GET", url:"x", status:404, message:"m"})`
is false. -/
theorem C2_matches_characterization :
    (∀ c p : ResourceError,
      IsResourceError (some c) (some (.resource p)) = some true ↔
        ((c.method = p.method ∨ p.method = "") ∧
         (c.url = p.url ∨ p.url = "") ∧
         (c.statusCode = p.statusCode ∨ p.statusCode ≤ 0) ∧
         (c.message = p.message ∨ p.message = ""))) ∧
    (∀ (c : ResourceError) (n : Nat),
      IsResourceError (some c) (some (.other n)) = some false) ∧
    IsResourceError none none = some true ∧
    (∀ c : ResourceError, IsResourceError (some c) none = some false) ∧
    IsResourceError (some ⟨"GET", "x", 404, "m"⟩)
      (some (.resource ⟨"", "", 404, ""⟩)) = some true ∧
    IsResourceError (some ⟨"GET", "x", 404, "m"⟩)
      (some (.resource ⟨"POST", "", 404, ""⟩)) = some false := by
  refine ⟨fun c p => ?_, fun c n => rfl, rfl, fun c => by simp [IsResourceError],
    by decide, by decide⟩
  simp [IsResourceError, and_assoc]

/-- C10: `IsStatusError(statusCode, target)` (error.go:54-65) returns
`(nil, false)` when the target is nil or not a `*ResourceError`; when
the target is a `*ResourceError` it returns that same pointer (non-nil)
paired with a boolean that is true exactly when the error's status code
equals the given one — so the pointer result is non-nil even when the
boolean is false. -/
theorem C10_IsStatusError_spec (sc : Int) :
    IsStatusError sc none = (none, false) ∧
    (∀ n, IsStatusError sc (some (.other n)) = (none, false)) ∧
    (∀ t : ResourceError,
      (IsStatusError sc (some (.resource t))).1 = some t ∧
      ((IsStatusError sc (some (.resource t))).2 = true ↔
        t.statusCode = sc)) := by
  refine ⟨rfl, fun n => rfl, fun t => ⟨rfl, ?_⟩⟩
  simp [IsStatusError]

/-- C7: `DecodeValueRange` (values.go:150-155) called with an empty
matrix list, or with a matrix list whose first matrix has an empty row
list, returns no error and leaves any destination — including one that
violates the destination-shape preconditions — completely unchanged;
the destination-shape checks are never reached. -/
theorem C7_empty_input_noop (hook : Hook) (cache : Cache) (dest : Dest) :
    DecodeValueRange hook cache dest [] = ⟨.ok, dest, cache⟩ ∧
    (∀ (rv : ValueRange) (rest : List ValueRange), rv.values = [] →
      DecodeValueRange hook cache dest (rv :: rest) = ⟨.ok, dest, cache⟩) := by
  refine ⟨rfl, fun rv rest hv => ?_⟩
  simp [DecodeValueRange, hv]

/-- Witness for C7 at a concrete invalid destination (`notPtr`) and a
first matrix with zero rows. -/
theorem C7_empty_input_noop_witness :
    DecodeValueRange trivialHook [] .notPtr [⟨"r", "ROWS", []⟩] =
      ⟨.ok, .notPtr, []⟩ :=
  (C7_empty_input_noop trivialHook [] .notPtr).2 ⟨"r", "ROWS", []⟩ [] rfl

/-- C8: calling `getMetadata` (values.go:94-147) twice on the same
struct type yields identical metadata, with the second call returning
the cached instance and leaving the cache untouched; once published, the
entry for the type is exactly what every later call returns. -/
theorem C8_getMetadata_cached (cache : Cache) (st : StructType) :
    (getMetadata (getMetadata cache st).2 st).1 = (getMetadata cache st).1 ∧
    (getMetadata (getMetadata cache st).2 st).2 = (getMetadata cache st).2 ∧
    cacheLookup (getMetadata cache st).2 st = some (getMetadata cache st).1 := by
  unfold getMetadata
  cases h : cacheLookup cache st with
  | some m => simp [h]
  | none => simp [h, cacheLookup]

/-- C9: the claim that every exit path of the transport releases the
response body fails on the code: when `Content-Encoding` is `gzip` and
`gzip.NewReader` fails, `Client.Do` (client.go:92-96) returns the error
without closing `response.Body`, so the request/response cycle through
`Client.ReadJSON` leaks the body on that path, while the transport-error
path, the non-gzip success path and the valid-gzip path do not leak. -/
theorem C9_gzip_error_path_leaks_body :
    readJSONLeaksBody (.success ⟨200, true, false⟩) = true ∧
    clientDo (.success ⟨200, true, false⟩) = ⟨none, true, true⟩ ∧
    readJSONLeaksBody (.failure true) = false ∧
    readJSONLeaksBody (.failure false) = false ∧
    readJSONLeaksBody (.success ⟨200, false, false⟩) = false ∧
    readJSONLeaksBody (.success ⟨404, true, true⟩) = false ∧
    readJSONLeaksBody (.success ⟨200, true, true⟩) = false := by
  decide

/-- C5: `getMetadata`'s descriptor computation (values.go:106-128)
returns descriptors in field declaration order, one per exported field
whose override tag is not `"-"`: unexported fields and fields tagged
`"-"` are excluded regardless of position; an included descriptor's name
is the non-empty tag value when present, else the field's own name; for
a type with no tags and all fields exported the result has one
descriptor per field, in declaration order, named by the field's own
name. -/
theorem C5_describe_descriptors (st : StructType) :
    (getMetadata [] st).1.headers = getHeaders st ∧
    getHeaders st =
      (st.fields.enumFrom 0).filterMap (fun p => headerOf p.1 p.2) ∧
    (∀ (i : Nat) (f : StructField), f.tag = "-" → headerOf i f = none) ∧
    (∀ (i : Nat) (f : StructField), f.pkgPath ≠ "" → headerOf i f = none) ∧
    (∀ (i : Nat) (f : StructField), f.pkgPath = "" → f.tag ≠ "-" →
      headerOf i f =
        some ⟨(if f.tag = "" then f.name else f.tag), i, f.name, f.typ⟩) ∧
    ((∀ f ∈ st.fields, f.pkgPath = "" ∧ f.tag = "") →
      getHeaders st = st.fields.enum.map
        fun p => (⟨p.2.name, p.1, p.2.name, p.2.typ⟩ : Header)) := by
  refine ⟨rfl, headersFrom_eq_filterMap st.fields 0,
    fun i f hf => by simp [headerOf, hf],
    fun i f hf => by simp [headerOf, hf],
    fun i f h1 h2 => by simp [headerOf, h1, h2],
    fun h => headersFrom_all_plain st.fields h 0⟩

/-- Witness for C5 on the `(Name string, Age int)` example type and on
the excluded tagged field of `testRow`. -/
theorem C5_describe_descriptors_witness :
    getHeaders nameAgeStruct =
      [⟨"Name", 0, "Name", .tstr⟩, ⟨"Age", 1, "Age", .tint⟩] ∧
    headerOf 1 ⟨"Other", "", "-", .tstr⟩ = none := by
  constructor
  · rw [(C5_describe_descriptors nameAgeStruct).2.2.2.2.2 (by decide)]
    rfl
  · exact (C5_describe_descriptors nameAgeStruct).2.2.1 1
      ⟨"Other", "", "-", .tstr⟩ rfl

/-- C4: default field assignment (values.go:233-238) assigns the raw
cell value at position `i` to the `i`-th descriptor's field exactly when
the cell's runtime type is directly assignable to the field's declared
type, otherwise leaves the field untouched, without any coercion and
without returning an error — a type mismatch never aborts the bind; in
particular binding `values=[["makis",27]]` against `(Name string,
Age int)` with no overrides yields exactly one record
`{Name:"makis", Age:27}`, and a mismatched `Age` cell leaves `Age` at
its zero value with no error. -/
theorem C4_default_assignment (hook : Hook) (meta : Metadata)
    (row : List CellValue) (rec : Record) (hd : meta.hasDecoder = false)
    (hb : row.length ≤ meta.headers.length) :
    decodeValue hook row meta rec = .ok (applyRow meta.headers 0 row rec) ∧
    (∀ (h : Header) (v : CellValue) (r : Record),
      defaultAssign h v r =
        if v.typeOf = h.fieldType then r.set h.fieldIndex v else r) ∧
    DecodeValueRange hook [] (.ptrSliceStructs nameAgeStruct [])
        [⟨"r", "ROWS", [[.vstr "makis", .vint 27]]⟩] =
      ⟨.ok, .ptrSliceStructs nameAgeStruct [[.vstr "makis", .vint 27]],
        [(nameAgeStruct, ⟨getHeaders nameAgeStruct, false⟩)]⟩ ∧
    DecodeValueRange hook [] (.ptrSliceStructs nameAgeStruct [])
        [⟨"r", "ROWS", [[.vstr "makis", .vstr "mismatch"]]⟩] =
      ⟨.ok, .ptrSliceStructs nameAgeStruct [[.vstr "makis", .vint 0]],
        [(nameAgeStruct, ⟨getHeaders nameAgeStruct, false⟩)]⟩ := by
  refine ⟨?_, fun h v r => by simp [defaultAssign, assignableTo], rfl, rfl⟩
  by_cases hrow : row = []
  · subst hrow; rfl
  · have hne : row.isEmpty = false := by simp [hrow]
    have hhe : meta.headers.isEmpty = false := by
      cases hH : meta.headers with
      | nil =>
        rw [hH] at hb
        simp only [List.length_nil, Nat.le_zero] at hb
        exact absurd (List.eq_nil_of_length_eq_zero hb) hrow
      | cons a l => rfl
    simp only [decodeValue, hne, hhe, Bool.or_self, Bool.false_or,
      if_false]
    exact decodeCells_noHook hook meta hd row 0 rec (by omega)

/-- Witness for C4 on the `(Name string, Age int)` type and the row
`["makis", 27]`. -/
theorem C4_default_assignment_witness :
    decodeValue trivialHook [.vstr "makis", .vint 27]
        ⟨getHeaders nameAgeStruct, false⟩ (zeroRecord nameAgeStruct) =
      .ok (applyRow (getHeaders nameAgeStruct) 0 [.vstr "makis", .vint 27]
        (zeroRecord nameAgeStruct)) :=
  (C4_default_assignment trivialHook ⟨getHeaders nameAgeStruct, false⟩
    [.vstr "makis", .vint 27] (zeroRecord nameAgeStruct) rfl (by decide)).1

/-- C6: row-binding pairs the cell at position `i` with the `i`-th
descriptor with no bounds check (values.go:216-217): a row with at most
as many cells as descriptors never reaches an out-of-bounds lookup,
for any hook; a row with more cells than descriptors (and at least one
descriptor), bound without a custom decoder, reaches the out-of-bounds
panic rather than skipping the excess cells or returning an error. -/
theorem C6_no_bounds_check :
    (∀ (hook : Hook) (meta : Metadata) (row : List CellValue)
        (rec : Record), row.length ≤ meta.headers.length →
      decodeValue hook row meta rec ≠ .panicOOB) ∧
    (∀ (hook : Hook) (meta : Metadata) (row : List CellValue)
        (rec : Record), meta.hasDecoder = false → meta.headers ≠ [] →
      meta.headers.length < row.length →
      decodeValue hook row meta rec = .panicOOB) := by
  constructor
  · intro hook meta row rec hb
    by_cases hrow : row = []
    · subst hrow; simp [decodeValue]
    · have hne : row.isEmpty = false := by simp [hrow]
      simp only [decodeValue, hne, Bool.false_or]
      by_cases hhe : meta.headers.isEmpty = true
      · simp [hhe]
      · rw [if_neg hhe]
        exact decodeCells_no_panic hook meta row 0 rec (by omega)
  · intro hook meta row rec hd hne hlen
    have hrow : row ≠ [] := by
      intro h0; rw [h0] at hlen
      simp only [List.length_nil] at hlen; omega
    have hne1 : row.isEmpty = false := by simp [hrow]
    have hne2 : meta.headers.isEmpty = false := by simp [hne]
    simp only [decodeValue, hne1, hne2, Bool.or_self, if_false]
    exact decodeCells_noHook_panic hook meta hd row 0 rec (Nat.zero_le _)
      (by omega)

/-- Witness for C6: a one-descriptor type with a one-cell row does not
panic, and the same type with a two-cell row does. -/
theorem C6_no_bounds_check_witness :
    decodeValue trivialHook [.vstr "x"]
        ⟨[⟨"Name", 0, "Name", .tstr⟩], false⟩ [.vstr ""] ≠ .panicOOB ∧
    decodeValue trivialHook [.vstr "x", .vstr "y"]
        ⟨[⟨"Name", 0, "Name", .tstr⟩], false⟩ [.vstr ""] = .panicOOB :=
  ⟨C6_no_bounds_check.1 trivialHook ⟨[⟨"Name", 0, "Name", .tstr⟩], false⟩
      [.vstr "x"] [.vstr ""] (by decide),
   C6_no_bounds_check.2 trivialHook ⟨[⟨"Name", 0, "Name", .tstr⟩], false⟩
      [.vstr "x", .vstr "y"] [.vstr ""] rfl (by decide) (by decide)⟩

/-- C1 (amended): for a sequence destination — `*[]T` or `*[]*T` with
`T` a struct — provided the first supplied matrix has at least one row
(otherwise values.go:153-155 makes the whole call a no-op) and every row
decodes normally, binding matrices containing N data rows in total
appends exactly N records, in encounter order (rows within a matrix in
order, matrices in the order supplied, concatenated); each appended
record is decoded from its own freshly allocated zero instance
(`decodeRowD`), the pointer-element destination appending the fresh
allocation and the value-element destination its dereferenced copy. -/
theorem C1_sequence_append (hook : Hook) (cache : Cache) (st : StructType)
    (items : List Record) (rv0 : ValueRange) (rest : List ValueRange)
    (hne : rv0.values ≠ [])
    (hok : ∀ row ∈ allRows (rv0 :: rest),
      (decodeValue hook row (getMetadata cache st).1
        (zeroRecord st)).isOk = true) :
    DecodeValueRange hook cache (.ptrSliceStructs st items) (rv0 :: rest) =
      ⟨.ok, .ptrSliceStructs st (items ++ (allRows (rv0 :: rest)).map
          (decodeRowD hook (getMetadata cache st).1 st)),
        (getMetadata cache st).2⟩ ∧
    DecodeValueRange hook cache (.ptrSlicePtrStructs st items)
        (rv0 :: rest) =
      ⟨.ok, .ptrSlicePtrStructs st (items ++ (allRows (rv0 :: rest)).map
          (decodeRowD hook (getMetadata cache st).1 st)),
        (getMetadata cache st).2⟩ ∧
    (items ++ (allRows (rv0 :: rest)).map
        (decodeRowD hook (getMetadata cache st).1 st)).length =
      items.length + (allRows (rv0 :: rest)).length := by
  have hni : rv0.values.isEmpty = false := by simp [hne]
  refine ⟨?_, ?_, by simp⟩
  · simp only [DecodeValueRange, hni, Bool.false_eq_true, if_false]
    rw [bindRanges_ok hook (getMetadata cache st).1 st (rv0 :: rest)
      items hok]
  · simp only [DecodeValueRange, hni, Bool.false_eq_true, if_false]
    rw [bindRanges_ok hook (getMetadata cache st).1 st (rv0 :: rest)
      items hok]

/-- Witness for C1 on a one-row matrix bound into an empty
`*[]nameAgeStruct` destination. -/
theorem C1_sequence_append_witness :
    DecodeValueRange trivialHook [] (.ptrSliceStructs nameAgeStruct [])
        [⟨"r", "ROWS", [[.vstr "a", .vint 1]]⟩] =
      ⟨.ok, .ptrSliceStructs nameAgeStruct
          ([] ++ (allRows [⟨"r", "ROWS", [[.vstr "a", .vint 1]]⟩]).map
            (decodeRowD trivialHook
              (getMetadata [] nameAgeStruct).1 nameAgeStruct)),
        (getMetadata [] nameAgeStruct).2⟩ :=
  (C1_sequence_append trivialHook [] nameAgeStruct []
    ⟨"r", "ROWS", [[.vstr "a", .vint 1]]⟩ [] (by decide) (by decide)).1

/-- Counterexample to C1 as stated: a matrix list whose first matrix has
zero rows and whose second matrix has one data row (N = 1) appends
nothing and returns no error, because values.go:153-155 short-circuits
on the first matrix alone. -/
theorem C1_counterexample :
    DecodeValueRange trivialHook [] (.ptrSliceStructs nameAgeStruct [])
        [⟨"a", "ROWS", []⟩, ⟨"b", "ROWS", [[.vstr "makis", .vint 27]]⟩] =
      ⟨.ok, .ptrSliceStructs nameAgeStruct [], []⟩ ∧
    (allRows [⟨"a", "ROWS", []⟩,
      ⟨"b", "ROWS", [[.vstr "makis", .vint 27]]⟩]).length = 1 :=
  ⟨rfl, rfl⟩

/-- A hook that writes a marker into the field and then answers the
`ErrOK` sentinel: legal for a `DecodeField` implementation, and the
source of the counterexample to C3 as stated. -/
def garbageHook : Hook := fun _ _ r => (r.set 0 (.vstr "garbage"), .errOK)

/-- C3 (amended): during row-binding of a type with the custom
field-decode capability the hook is consulted for every cell
(values.go:221-231), with exactly three outcomes: (a) if it returns the
`ErrOK` sentinel, default assignment runs next, and provided the hook
left the record unchanged the whole bind equals binding without any
hook; (b) if it returns no error, default assignment for that cell is
skipped; (c) if it returns any other non-nil error, the bind aborts
immediately and that error is returned unchanged, up through
`DecodeValueRange`. -/
theorem C3_custom_hook_outcomes :
    (∀ (hook hook' : Hook) (meta : Metadata) (row : List CellValue)
        (rec : Record), (∀ h v r, hook h v r = (r, .errOK)) →
      decodeValue hook row meta rec =
        decodeValue hook' row ⟨meta.headers, false⟩ rec) ∧
    (∀ (g : Header → CellValue → Record → Record) (hook : Hook)
        (meta : Metadata) (row : List CellValue) (rec : Record),
      meta.hasDecoder = true →
      (∀ h v r, hook h v r = (g h v r, .nilErr)) →
      row.length ≤ meta.headers.length →
      decodeValue hook row meta rec =
        .ok (applyHooked g meta.headers 0 row rec)) ∧
    (∀ (hook : Hook) (meta : Metadata) (i : Nat) (v : CellValue)
        (rest : List CellValue) (rec rec₂ : Record) (h : Header)
        (tag : Nat), meta.headers.get? i = some h →
      meta.hasDecoder = true → hook h v rec = (rec₂, .err tag) →
      decodeCells hook meta i (v :: rest) rec = .err tag rec₂) ∧
    (∀ (hook : Hook) (cache : Cache) (st : StructType)
        (items : List Record) (rng md : String) (row : List CellValue)
        (tag : Nat) (rec' : Record),
      decodeValue hook row (getMetadata cache st).1 (zeroRecord st) =
        .err tag rec' →
      DecodeValueRange hook cache (.ptrSliceStructs st items)
          [⟨rng, md, [row]⟩] =
        ⟨.err (.hookE tag), .ptrSliceStructs st items,
          (getMetadata cache st).2⟩) := by
  refine ⟨?_, ?_, ?_, ?_⟩
  · intro hook hook' meta row rec hid
    simp only [decodeValue]
    by_cases hc : (row.isEmpty || meta.headers.isEmpty) = true
    · rw [if_pos hc, if_pos hc]
    · rw [if_neg hc, if_neg hc]
      exact decodeCells_errOK_id hook hook' meta hid row 0 rec
  · intro g hook meta row rec hd hg hb
    by_cases hrow : row = []
    · subst hrow; rfl
    · have hne : row.isEmpty = false := by simp [hrow]
      have hhe : meta.headers.isEmpty = false := by
        cases hH : meta.headers with
        | nil =>
          rw [hH] at hb
          simp only [List.length_nil, Nat.le_zero] at hb
          exact absurd (List.eq_nil_of_length_eq_zero hb) hrow
        | cons a l => rfl
      simp only [decodeValue, hne, hhe, Bool.or_self, if_false]
      exact decodeCells_handled g hook meta hd hg row 0 rec (by omega)
  · intro hook meta i v rest rec rec₂ h tag hget hd hhook
    simp only [decodeCells, hget, hd, if_true, hhook]
  · intro hook cache st items rng md row tag rec' herr
    rcases hm : getMetadata cache st with ⟨meta, cache'⟩
    rw [hm] at herr
    simp only [DecodeValueRange, hm, List.isEmpty_cons, Bool.false_eq_true,
      if_false, bindRanges, bindRows]
    rw [herr]

/-- Witness for C3 on a one-field decoder type: an `ErrOK`-sentinel hook
matches no-hook binding, a handling hook skips default assignment, and
an erring hook aborts with its error intact up through
`DecodeValueRange`. -/
theorem C3_custom_hook_outcomes_witness :
    decodeValue (fun _ _ r => (r, .errOK)) [.vstr "x"]
        ⟨[⟨"Name", 0, "Name", .tstr⟩], true⟩ [.vstr ""] =
      decodeValue trivialHook [.vstr "x"]
        ⟨[⟨"Name", 0, "Name", .tstr⟩], false⟩ [.vstr ""] ∧
    decodeValue (fun _ _ r => (r, .nilErr)) [.vstr "x"]
        ⟨[⟨"Name", 0, "Name", .tstr⟩], true⟩ [.vstr ""] =
      .ok (applyHooked (fun _ _ r => r) [⟨"Name", 0, "Name", .tstr⟩] 0
        [.vstr "x"] [.vstr ""]) ∧
    decodeCells (fun _ _ r => (r, .err 7))
        ⟨[⟨"Name", 0, "Name", .tstr⟩], true⟩ 0 [.vstr "x"] [.vstr ""] =
      .err 7 [.vstr ""] ∧
    DecodeValueRange (fun _ _ r => (r, .err 7)) []
        (.ptrSliceStructs ⟨[⟨"Name", "", "", .tstr⟩], true⟩ [])
        [⟨"r", "ROWS", [[.vstr "x"]]⟩] =
      ⟨.err (.hookE 7),
        .ptrSliceStructs ⟨[⟨"Name", "", "", .tstr⟩], true⟩ [],
        (getMetadata [] ⟨[⟨"Name", "", "", .tstr⟩], true⟩).2⟩ :=
  ⟨C3_custom_hook_outcomes.1 (fun _ _ r => (r, .errOK)) trivialHook
      ⟨[⟨"Name", 0, "Name", .tstr⟩], true⟩ [.vstr "x"] [.vstr ""]
      (fun _ _ _ => rfl),
   C3_custom_hook_outcomes.2.1 (fun _ _ r => r) (fun _ _ r => (r, .nilErr))
      ⟨[⟨"Name", 0, "Name", .tstr⟩], true⟩ [.vstr "x"] [.vstr ""] rfl
      (fun _ _ _ => rfl) (by decide),
   C3_custom_hook_outcomes.2.2.1 (fun _ _ r => (r, .err 7))
      ⟨[⟨"Name", 0, "Name", .tstr⟩], true⟩ 0 (.vstr "x") [] [.vstr ""]
      [.vstr ""] ⟨"Name", 0, "Name", .tstr⟩ 7 rfl rfl rfl,
   C3_custom_hook_outcomes.2.2.2 (fun _ _ r => (r, .err 7)) []
      ⟨[⟨"Name", "", "", .tstr⟩], true⟩ [] "r" "ROWS" [.vstr "x"] 7
      [.vstr ""] rfl⟩

/-- Counterexample to C3 as stated: a hook may mutate the field and then
return the `ErrOK` sentinel; when the cell's type is not assignable to
the field, default assignment skips the field and the resulting field
value differs from what binding without any hook produces. -/
theorem C3_counterexample :
    decodeValue garbageHook [.vint 5]
        ⟨[⟨"Name", 0, "Name", .tstr⟩], true⟩ [.vstr ""] =
      .ok [.vstr "garbage"] ∧
    decodeValue garbageHook [.vint 5]
        ⟨[⟨"Name", 0, "Name", .tstr⟩], false⟩ [.vstr ""] =
      .ok [.vstr ""] ∧
    [CellValue.vstr "garbage"] ≠ [CellValue.vstr ""] :=
  ⟨rfl, rfl, by decide⟩

end Sheets
